import Mathlib

/-!
Verification of the query/range/search logic of the IPAM Web repository.

The repository is a static IPAM website.  Its "hard" parts are:
  * `src/_webpack/range.js`   — the `IpRange` class (byte-wise range matcher),
  * `src/_webpack/query.js`   — the `Query` class (query classification),
  * `src/_webpack/search.js`  — the `Search` class (linear search, routing),
  * `src/_webpack/ipam.js`    — the `IPAM` class (fetching, sanitizing,
    filtering of JSON collections),
  * `src/unnamed/part_001`    — an older `IpRange` class comparing IPv4 octets
    or 16-bit IPv6 parts instead of bytes.

The underlying address representation comes from the third-party library
`ipaddr.js`.  We embed its data model (an address is either four octets or
eight 16-bit parts, `toByteArray` flattens IPv6 parts into bytes), and keep
its string-parsing entry points (`isValid`, `process`, `parseCIDR`) and its
CIDR matcher abstract, as a record of functions `IpaddrLib`: the claims under
verification are about the repository's dispatch, comparison and filtering
logic, not about the library's string grammar.

JavaScript exceptions are modelled by `Option`: a function that may throw
returns `none` on the throwing executions, and `try { … } catch {}` becomes a
`match` on that `Option`.
-/

/-! ## The `ipaddr.js` address model -/

/-- An `ipaddr.js` address object: an IPv4 address stores its four octets
(`this.octets`), an IPv6 address stores its eight 16-bit parts
(`this.parts`). -/
inductive IpAddr where
  | v4 : List Nat → IpAddr
  | v6 : List Nat → IpAddr
deriving DecidableEq, Repr

/-- `kind()` from `ipaddr.js`. -/
def IpAddr.kind : IpAddr → String
  | .v4 _ => "ipv4"
  | .v6 _ => "ipv6"

/-- Structural well-formedness of an address object as produced by
`ipaddr.js`: four octets below 256, or eight parts below 2^16. -/
def IpAddr.wf : IpAddr → Prop
  | .v4 o => o.length = 4 ∧ ∀ x ∈ o, x < 256
  | .v6 p => p.length = 8 ∧ ∀ x ∈ p, x < 65536

instance (a : IpAddr) : Decidable a.wf := by
  cases a <;> simp [IpAddr.wf] <;> infer_instance

/-- Flatten 16-bit parts into bytes, high byte first: the IPv6 case of
`toByteArray()` pushes `part >> 8` and `part & 0xFF` for each part. -/
def bytesOfParts (ps : List Nat) : List Nat :=
  ps.flatMap (fun p => [p / 256, p % 256])

/-- `toByteArray()` from `ipaddr.js`: the octets of an IPv4 address, or the
IPv6 parts split into bytes (high byte first). -/
def IpAddr.toByteArray : IpAddr → List Nat
  | .v4 o => o
  | .v6 p => bytesOfParts p

/-! ## `IpRange` from `src/_webpack/range.js` -/

/-- The `IpRange` class: a first and a last boundary address
(`range.js`, constructor). -/
structure IpRange where
  first : IpAddr
  last : IpAddr
deriving DecidableEq, Repr

/-- A JavaScript comparison callback.  The callbacks used by `match` are
`(i,j) => i < j` and `(i,j) => i > j`; array reads out of bounds yield
`undefined` (modelled by `none`), and `<`/`>` on `undefined` is `false`. -/
def jsLt : Option Nat → Option Nat → Bool
  | some i, some j => i < j
  | _, _ => false

/-- `(i,j) => i > j` with JavaScript `undefined` semantics. -/
def jsGt : Option Nat → Option Nat → Bool
  | some i, some j => i > j
  | _, _ => false

/-- `IpRange.cmp` from `range.js` lines 77–96, abstracted over the two part
arrays `a = ip.toByteArray()` and `b = rangeIp.toByteArray()`: skip equal
parts; at the first index where they differ return `cmpFunc(b[i], a[i])`;
return `true` when all parts of `a` were skipped.  When `b` is shorter than
`a`, `a[i] == b[i]` compares a number with `undefined` (false), and
`cmpFunc(undefined, a[i])` is evaluated. -/
def IpRange.cmp (a b : List Nat) (cmpFunc : Option Nat → Option Nat → Bool) : Bool :=
  match a, b with
  | [], _ => true
  | x :: _, [] => cmpFunc none (some x)
  | x :: xs, y :: ys => if x = y then IpRange.cmp xs ys cmpFunc else cmpFunc (some y) (some x)

/-- `IpRange.prototype.match` from `range.js` lines 117–121:
`cmp(ip, first, (i,j) => i < j) && cmp(ip, last, (i,j) => i > j)`. -/
def IpRange.matchIp (r : IpRange) (ip : IpAddr) : Bool :=
  IpRange.cmp ip.toByteArray r.first.toByteArray jsLt &&
  IpRange.cmp ip.toByteArray r.last.toByteArray jsGt

/-! ## Lexicographic order on byte arrays (the specification side) -/

/-- Lexicographic (dictionary) `≤` on equal-length part lists: the order the
specification refers to by "first <= ip <= last in address order". -/
def lexLe : List Nat → List Nat → Bool
  | [], _ => true
  | _ :: _, [] => false
  | x :: xs, y :: ys => decide (x < y) || (decide (x = y) && lexLe xs ys)

theorem lexLe_refl (a : List Nat) : lexLe a a = true := by
  induction a with
  | nil => rfl
  | cons x xs ih => simp [lexLe, ih]

/-- On equal-length lists, `lexLe` is total: `a ≤ b` or `b ≤ a`. -/
theorem lexLe_total (a b : List Nat) (h : a.length = b.length) :
    lexLe a b = true ∨ lexLe b a = true := by
  induction a generalizing b with
  | nil => cases b <;> simp_all [lexLe]
  | cons x xs ih =>
    cases b with
    | nil => simp at h
    | cons y ys =>
      simp only [List.length_cons, Nat.succ.injEq] at h
      rcases Nat.lt_trichotomy x y with hxy | hxy | hxy
      · left; simp [lexLe, hxy]
      · subst hxy
        rcases ih ys h with h' | h'
        · left; simp [lexLe, h']
        · right; simp [lexLe, h']
      · right; simp [lexLe, hxy]

/-- On equal-length lists, `lexLe` in both directions forces equality. -/
theorem lexLe_antisymm (a b : List Nat) (hab : lexLe a b = true)
    (hba : lexLe b a = true) : a = b := by
  induction a generalizing b with
  | nil => cases b with
    | nil => rfl
    | cons y ys => simp [lexLe] at hba
  | cons x xs ih =>
    cases b with
    | nil => simp [lexLe] at hab
    | cons y ys =>
      simp only [lexLe, Bool.or_eq_true, Bool.and_eq_true, decide_eq_true_eq] at hab hba
      rcases hab with h1 | ⟨h1, h1'⟩
      · rcases hba with h2 | ⟨h2, _⟩
        · omega
        · omega
      · subst h1
        rcases hba with h2 | ⟨_, h2'⟩
        · omega
        · rw [ih ys h1' h2']

/-- `cmp` with the `<` callback tests `rangeIp ≤ ip`: on equal-length byte
arrays, `IpRange.cmp a b jsLt = lexLe b a`. -/
theorem cmp_jsLt_eq_lexLe (a b : List Nat) (h : a.length = b.length) :
    IpRange.cmp a b jsLt = lexLe b a := by
  induction a generalizing b with
  | nil => cases b with
    | nil => rfl
    | cons y ys => simp at h
  | cons x xs ih =>
    cases b with
    | nil => simp at h
    | cons y ys =>
      simp only [List.length_cons, Nat.succ.injEq] at h
      by_cases hxy : x = y
      · subst hxy
        simp [IpRange.cmp, lexLe, ih _ h]
      · have hne : y ≠ x := fun hc => hxy hc.symm
        simp [IpRange.cmp, lexLe, hxy, hne, jsLt]

/-- `cmp` with the `>` callback tests `ip ≤ rangeIp`: on equal-length byte
arrays, `IpRange.cmp a b jsGt = lexLe a b`. -/
theorem cmp_jsGt_eq_lexLe (a b : List Nat) (h : a.length = b.length) :
    IpRange.cmp a b jsGt = lexLe a b := by
  induction a generalizing b with
  | nil => cases b with
    | nil => rfl
    | cons y ys => simp at h
  | cons x xs ih =>
    cases b with
    | nil => simp at h
    | cons y ys =>
      simp only [List.length_cons, Nat.succ.injEq] at h
      by_cases hxy : x = y
      · subst hxy
        simp [IpRange.cmp, lexLe, ih _ h]
      · have hne : y ≠ x := fun hc => hxy hc.symm
        simp [IpRange.cmp, lexLe, hxy, hne, jsGt]

theorem bytesOfParts_length (ps : List Nat) :
    (bytesOfParts ps).length = 2 * ps.length := by
  induction ps with
  | nil => rfl
  | cons p ps ih => simp [bytesOfParts] at ih ⊢; omega

/-- Two well-formed addresses of the same kind have byte arrays of the same
length. -/
theorem toByteArray_length_eq {a b : IpAddr} (ha : a.wf) (hb : b.wf)
    (hk : a.kind = b.kind) : a.toByteArray.length = b.toByteArray.length := by
  cases a <;> cases b <;>
    simp_all [IpAddr.kind, IpAddr.wf, IpAddr.toByteArray, bytesOfParts_length]

/-- `lexLe` is transitive. -/
theorem lexLe_trans : ∀ (a b c : List Nat),
    lexLe a b = true → lexLe b c = true → lexLe a c = true := by
  intro a
  induction a with
  | nil => intro b c _ _; simp [lexLe]
  | cons x xs ih =>
    intro b c hab hbc
    cases b with
    | nil => simp [lexLe] at hab
    | cons y ys =>
      cases c with
      | nil => simp [lexLe] at hbc
      | cons z zs =>
        simp only [lexLe, Bool.or_eq_true, Bool.and_eq_true,
          decide_eq_true_eq] at hab hbc ⊢
        rcases hab with h1 | ⟨h1, h1'⟩ <;> rcases hbc with h2 | ⟨h2, h2'⟩
        · left; omega
        · left; omega
        · left; omega
        · right; exact ⟨by omega, ih ys zs h1' h2'⟩

/-- **C1**: for a range whose boundaries have the same IP version as the
queried address, `IpRange.match(ip)` is true exactly when the byte array of
`ip` lies lexicographically between the byte arrays of `first` and `last`;
consequently, when `first` is strictly greater than `last`, `match` is false
for every such `ip`. -/
theorem ipRange_match_iff_lex (r : IpRange) (ip : IpAddr)
    (hf : r.first.wf) (hl : r.last.wf) (hip : ip.wf)
    (hkf : r.first.kind = ip.kind) (hkl : r.last.kind = ip.kind) :
    (r.matchIp ip =
      (lexLe r.first.toByteArray ip.toByteArray &&
       lexLe ip.toByteArray r.last.toByteArray)) ∧
    (lexLe r.first.toByteArray r.last.toByteArray = false →
      r.matchIp ip = false) := by
  have l1 : ip.toByteArray.length = r.first.toByteArray.length :=
    toByteArray_length_eq hip hf hkf.symm
  have l2 : ip.toByteArray.length = r.last.toByteArray.length :=
    toByteArray_length_eq hip hl hkl.symm
  have hmain : r.matchIp ip =
      (lexLe r.first.toByteArray ip.toByteArray &&
       lexLe ip.toByteArray r.last.toByteArray) := by
    unfold IpRange.matchIp
    rw [cmp_jsLt_eq_lexLe _ _ l1, cmp_jsGt_eq_lexLe _ _ l2]
  refine ⟨hmain, fun hfl => ?_⟩
  rw [hmain]
  have hsplit : lexLe r.first.toByteArray ip.toByteArray = false ∨
      lexLe ip.toByteArray r.last.toByteArray = false := by
    rcases Bool.dichotomy (lexLe r.first.toByteArray ip.toByteArray) with ha | ha
    · exact Or.inl ha
    rcases Bool.dichotomy (lexLe ip.toByteArray r.last.toByteArray) with hb | hb
    · exact Or.inr hb
    have htr := lexLe_trans _ _ _ ha hb
    rw [hfl] at htr
    exact absurd htr Bool.false_ne_true
  rcases hsplit with h | h <;> simp [h]

/-- Witness for C1 at a concrete IPv4 range and address. -/
theorem ipRange_match_iff_lex_witness :
    (IpRange.mk (.v4 [10, 0, 0, 1]) (.v4 [10, 0, 0, 9])).matchIp
        (.v4 [10, 0, 0, 5]) =
      (lexLe (IpAddr.v4 [10, 0, 0, 1]).toByteArray
          (IpAddr.v4 [10, 0, 0, 5]).toByteArray &&
       lexLe (IpAddr.v4 [10, 0, 0, 5]).toByteArray
          (IpAddr.v4 [10, 0, 0, 9]).toByteArray) ∧
    (lexLe (IpAddr.v4 [10, 0, 0, 1]).toByteArray
        (IpAddr.v4 [10, 0, 0, 9]).toByteArray = false →
      (IpRange.mk (.v4 [10, 0, 0, 1]) (.v4 [10, 0, 0, 9])).matchIp
        (.v4 [10, 0, 0, 5]) = false) :=
  ipRange_match_iff_lex
    (IpRange.mk (.v4 [10, 0, 0, 1]) (.v4 [10, 0, 0, 9])) (.v4 [10, 0, 0, 5])
    (by decide) (by decide) (by decide) (by decide) (by decide)

/-! ## The older `IpRange` matcher from `src/unnamed/part_001` -/

/-- `IpRange.getIpParts` from `part_001` lines 43–50: the raw octet array of
an IPv4 address, the raw 16-bit part array of an IPv6 address. -/
def Legacy.getIpParts : IpAddr → List Nat
  | .v4 o => o
  | .v6 p => p

/-- `IpRange.cmp` from `part_001` lines 66–85: the same first-difference loop
as the current `range.js`, but over `getIpParts` arrays instead of byte
arrays. -/
def Legacy.cmp (a b : List Nat) (cmpFunc : Option Nat → Option Nat → Bool) : Bool :=
  match a, b with
  | [], _ => true
  | x :: _, [] => cmpFunc none (some x)
  | x :: xs, y :: ys => if x = y then Legacy.cmp xs ys cmpFunc else cmpFunc (some y) (some x)

/-- `IpRange.prototype.match` from `part_001` lines 95–99. -/
def Legacy.matchIp (r : IpRange) (ip : IpAddr) : Bool :=
  Legacy.cmp (Legacy.getIpParts ip) (Legacy.getIpParts r.first) jsLt &&
  Legacy.cmp (Legacy.getIpParts ip) (Legacy.getIpParts r.last) jsGt

theorem legacy_cmp_eq_cmp (a b : List Nat)
    (f : Option Nat → Option Nat → Bool) :
    Legacy.cmp a b f = IpRange.cmp a b f := by
  induction a generalizing b with
  | nil => cases b <;> rfl
  | cons x xs ih =>
    cases b with
    | nil => rfl
    | cons y ys => simp [Legacy.cmp, IpRange.cmp, ih]

/-- Splitting 16-bit parts into high/low bytes preserves the lexicographic
order: comparing part arrays part-by-part and byte-by-byte agree. -/
theorem lexLe_bytesOfParts (ps qs : List Nat) (h : ps.length = qs.length) :
    lexLe (bytesOfParts ps) (bytesOfParts qs) = lexLe ps qs := by
  induction ps generalizing qs with
  | nil =>
    cases qs with
    | nil => rfl
    | cons q qs => simp at h
  | cons p ps ih =>
    cases qs with
    | nil => simp at h
    | cons q qs =>
      simp only [List.length_cons, Nat.succ.injEq] at h
      show lexLe (p / 256 :: p % 256 :: bytesOfParts ps)
          (q / 256 :: q % 256 :: bytesOfParts qs) = lexLe (p :: ps) (q :: qs)
      simp only [lexLe, ih qs h]
      by_cases hpq : p = q
      · subst hpq; simp
      · by_cases hd : p / 256 = q / 256
        · have hm : ¬(p % 256 = q % 256) := by omega
          have hiff : (p % 256 < q % 256) ↔ (p < q) := by omega
          simp [hd, hpq, hm, hiff]
        · have hiff : (p / 256 < q / 256) ↔ (p < q) := by omega
          simp [hd, hpq, hiff]

theorem parts_length_eq {a b : IpAddr} (ha : a.wf) (hb : b.wf)
    (hk : a.kind = b.kind) :
    (Legacy.getIpParts a).length = (Legacy.getIpParts b).length := by
  cases a <;> cases b <;>
    simp_all [IpAddr.kind, IpAddr.wf, Legacy.getIpParts]

theorem cmpParts_eq_cmpBytes_jsLt (a b : IpAddr) (ha : a.wf) (hb : b.wf)
    (hk : a.kind = b.kind) :
    Legacy.cmp (Legacy.getIpParts a) (Legacy.getIpParts b) jsLt =
    IpRange.cmp a.toByteArray b.toByteArray jsLt := by
  rw [legacy_cmp_eq_cmp, cmp_jsLt_eq_lexLe _ _ (parts_length_eq ha hb hk),
    cmp_jsLt_eq_lexLe _ _ (toByteArray_length_eq ha hb hk)]
  cases a with
  | v4 oa =>
    cases b with
    | v4 ob => rfl
    | v6 pb => simp [IpAddr.kind] at hk
  | v6 pa =>
    cases b with
    | v4 ob => simp [IpAddr.kind] at hk
    | v6 pb =>
      show lexLe pb pa = lexLe (bytesOfParts pb) (bytesOfParts pa)
      exact (lexLe_bytesOfParts pb pa
        (by simp [IpAddr.wf] at ha hb; omega)).symm

theorem cmpParts_eq_cmpBytes_jsGt (a b : IpAddr) (ha : a.wf) (hb : b.wf)
    (hk : a.kind = b.kind) :
    Legacy.cmp (Legacy.getIpParts a) (Legacy.getIpParts b) jsGt =
    IpRange.cmp a.toByteArray b.toByteArray jsGt := by
  rw [legacy_cmp_eq_cmp, cmp_jsGt_eq_lexLe _ _ (parts_length_eq ha hb hk),
    cmp_jsGt_eq_lexLe _ _ (toByteArray_length_eq ha hb hk)]
  cases a with
  | v4 oa =>
    cases b with
    | v4 ob => rfl
    | v6 pb => simp [IpAddr.kind] at hk
  | v6 pa =>
    cases b with
    | v4 ob => simp [IpAddr.kind] at hk
    | v6 pb =>
      show lexLe pa pb = lexLe (bytesOfParts pa) (bytesOfParts pb)
      exact (lexLe_bytesOfParts pa pb
        (by simp [IpAddr.wf] at ha hb; omega)).symm

/-- **C4**: on range boundaries and queried addresses of one common IP
version (well-formed per `ipaddr.js`), the current byte-array matcher of
`range.js` and the older part-array matcher of `part_001` agree on
membership. -/
theorem legacy_match_eq_match (r : IpRange) (ip : IpAddr)
    (hf : r.first.wf) (hl : r.last.wf) (hip : ip.wf)
    (hkf : r.first.kind = ip.kind) (hkl : r.last.kind = ip.kind) :
    Legacy.matchIp r ip = r.matchIp ip := by
  rw [Legacy.matchIp, IpRange.matchIp,
    cmpParts_eq_cmpBytes_jsLt ip r.first hip hf hkf.symm,
    cmpParts_eq_cmpBytes_jsGt ip r.last hip hl hkl.symm]

/-- Witness for C4 at a concrete IPv6 range and address. -/
theorem legacy_match_eq_match_witness :
    Legacy.matchIp
        (IpRange.mk (.v6 [8193, 3512, 0, 0, 0, 0, 0, 1])
          (.v6 [8193, 3512, 0, 0, 0, 0, 0, 500]))
        (.v6 [8193, 3512, 0, 0, 0, 0, 0, 300]) =
      (IpRange.mk (.v6 [8193, 3512, 0, 0, 0, 0, 0, 1])
          (.v6 [8193, 3512, 0, 0, 0, 0, 0, 500])).matchIp
        (.v6 [8193, 3512, 0, 0, 0, 0, 0, 300]) :=
  legacy_match_eq_match
    (IpRange.mk (.v6 [8193, 3512, 0, 0, 0, 0, 0, 1])
      (.v6 [8193, 3512, 0, 0, 0, 0, 0, 500]))
    (.v6 [8193, 3512, 0, 0, 0, 0, 0, 300])
    (by decide) (by decide) (by decide) (by decide) (by decide)

/-! ## JavaScript string primitives

`String.prototype.split` with a one-character separator and
`String.prototype.trim`, modelled by structural recursion over the character
list of the string. -/

/-- Worker for `jsSplit`: scan the characters, cutting at each separator. -/
def jsSplitAux (sep : Char) : List Char → List Char → List String
  | [], acc => [String.mk acc.reverse]
  | c :: cs, acc =>
    if c = sep then String.mk acc.reverse :: jsSplitAux sep cs []
    else jsSplitAux sep cs (c :: acc)

/-- JavaScript `str.split(sep)` for a one-character separator: the list of
maximal separator-free chunks, including empty ones; `''.split(sep)` is
`['']`. -/
def jsSplit (sep : Char) (s : String) : List String :=
  jsSplitAux sep s.data []

/-- JavaScript `str.trim()`: strip leading and trailing whitespace. -/
def jsTrim (s : String) : String :=
  String.mk
    (((s.data.dropWhile Char.isWhitespace).reverse.dropWhile
      Char.isWhitespace).reverse)

/-! ## The abstract `ipaddr.js` parsing interface

The repository treats `ipaddr.js` as a black box for strings: `isValid`
validates an address string, `process` parses one (throwing on invalid
input, hence `Option`), `parseCIDR` parses `addr/len` notation (throwing on
anything else), and `addr.match([net, len])` tests CIDR membership.  The
claims quantify over any such library. -/

structure IpaddrLib where
  /-- `ipaddr.isValid(str)`. -/
  isValid : String → Bool
  /-- `ipaddr.process(str)`; `none` models a thrown `Error`. -/
  process : String → Option IpAddr
  /-- `ipaddr.parseCIDR(str)`; `none` models a thrown `Error`. -/
  parseCIDR : String → Option (IpAddr × Nat)
  /-- `ip.match([net, len])` of `ipaddr.js`. -/
  matchCIDR : IpAddr → IpAddr × Nat → Bool

/-- A library is coherent when every string it validates is one it can also
parse: `ipaddr.process` succeeds on every input accepted by
`ipaddr.isValid`. -/
def IpaddrLib.wf (lib : IpaddrLib) : Prop :=
  ∀ s, lib.isValid s = true → (lib.process s).isSome = true

/-- `IpRange.isValid` from `range.js` lines 43–47: split on `'-'` and check
that there are exactly two parts, each a valid address string. -/
def IpRange.isValid (lib : IpaddrLib) (str : String) : Bool :=
  let ips := jsSplit '-' str
  ips.length == 2 && ips.all lib.isValid

/-- `IpRange.process` from `range.js` lines 57–61: split on `'-'` and parse
the first two parts with `ipaddr.process`; a missing part or a parse error
throws (`none`). -/
def IpRange.process (lib : IpaddrLib) (str : String) : Option IpRange :=
  let ips := jsSplit '-' str
  match (ips[0]?).bind lib.process, (ips[1]?).bind lib.process with
  | some a, some b => some (IpRange.mk a b)
  | _, _ => none

/-- **C7**: whenever `IpRange.isValid(str)` holds — i.e. `str` splits on
`'-'` into exactly two valid address strings — `IpRange.process(str)` throws
no error and yields the range whose `first`/`last` are the parsed first and
second halves.  No hypothesis relates the two halves: the check demands
neither a common IP version nor `first <= last`. -/
theorem ipRange_process_of_isValid (lib : IpaddrLib) (hlib : lib.wf)
    (str : String) (h : IpRange.isValid lib str = true) :
    ∃ s0 s1 a b, jsSplit '-' str = [s0, s1] ∧
      lib.process s0 = some a ∧ lib.process s1 = some b ∧
      IpRange.process lib str = some (IpRange.mk a b) := by
  rw [IpRange.isValid] at h
  simp only [Bool.and_eq_true, beq_iff_eq, List.all_eq_true] at h
  obtain ⟨hlen, hall⟩ := h
  rcases hsp : jsSplit '-' str with _ | ⟨s0, rest⟩
  · rw [hsp] at hlen; simp at hlen
  rcases rest with _ | ⟨s1, rest2⟩
  · rw [hsp] at hlen; simp at hlen
  rcases rest2 with _ | ⟨s2, rest3⟩
  case cons.cons.cons => rw [hsp] at hlen; simp at hlen
  rw [hsp] at hall
  have h0 := hlib s0 (hall s0 (by simp))
  have h1 := hlib s1 (hall s1 (by simp))
  rw [Option.isSome_iff_exists] at h0 h1
  obtain ⟨a, ha⟩ := h0
  obtain ⟨b, hb⟩ := h1
  refine ⟨s0, s1, a, b, rfl, ha, hb, ?_⟩
  rw [IpRange.process]
  simp [hsp, ha, hb]

/-- A small concrete instantiation of the `ipaddr.js` interface, used to
evaluate the theorems on closed inputs. -/
def toyLib : IpaddrLib where
  isValid s := s == "1.2.3.4" || s == "5.6.7.8" || s == "::1"
  process s :=
    if s == "1.2.3.4" then some (.v4 [1, 2, 3, 4])
    else if s == "5.6.7.8" then some (.v4 [5, 6, 7, 8])
    else if s == "::1" then some (.v6 [0, 0, 0, 0, 0, 0, 0, 1])
    else none
  parseCIDR s :=
    if s == "10.0.0.0/8" then some (.v4 [10, 0, 0, 0], 8) else none
  matchCIDR _ _ := true

theorem toyLib_wf : toyLib.wf := by
  intro s h
  simp only [toyLib, Bool.or_eq_true, beq_iff_eq] at h
  rcases h with (h | h) | h <;> subst h <;> rfl

/-- Witness for C7 on a mixed-version range string. -/
theorem ipRange_process_of_isValid_witness :
    ∃ s0 s1 a b, jsSplit '-' "1.2.3.4-::1" = [s0, s1] ∧
      toyLib.process s0 = some a ∧ toyLib.process s1 = some b ∧
      IpRange.process toyLib "1.2.3.4-::1" = some (IpRange.mk a b) :=
  ipRange_process_of_isValid toyLib toyLib_wf "1.2.3.4-::1" (by decide)

/-! ## `Query` from `src/_webpack/query.js` -/

/-- The value `Query.parse` produces: an `ipaddr.js` address object, an
`IpRange` object, a CIDR pair `[address, prefixLength]`, or a plain
string. -/
inductive QueryResult where
  | ip : IpAddr → QueryResult
  | range : IpRange → QueryResult
  | subnet : IpAddr × Nat → QueryResult
  | text : String → QueryResult
deriving DecidableEq, Repr

/-- `Query.parse` from `query.js` lines 71–92: try a plain address, then an
IP range, then CIDR notation (whose parse error is caught), and fall back to
the trimmed query string.  The result is `none` only when an uncaught
exception escapes. -/
def Query.parse (lib : IpaddrLib) (q : String) : Option QueryResult :=
  if lib.isValid q then (lib.process q).map QueryResult.ip
  else if IpRange.isValid lib q then
    (IpRange.process lib q).map QueryResult.range
  else
    match lib.parseCIDR q with
    | some c => some (QueryResult.subnet c)
    | none => some (QueryResult.text (jsTrim q))

/-- The four-way classification C2 ascribes to `Query.parse`: address
strings become address objects; otherwise two-part range strings become
ranges; otherwise CIDR strings become subnet pairs; otherwise the trimmed
text is returned. -/
def ParseSpec (lib : IpaddrLib) (q : String) (r : QueryResult) : Prop :=
  (lib.isValid q = true → ∃ a, lib.process q = some a ∧ r = .ip a) ∧
  (lib.isValid q = false → IpRange.isValid lib q = true →
    ∃ rg, IpRange.process lib q = some rg ∧ r = .range rg) ∧
  (lib.isValid q = false → IpRange.isValid lib q = false →
    ∀ c, lib.parseCIDR q = some c → r = .subnet c) ∧
  (lib.isValid q = false → IpRange.isValid lib q = false →
    lib.parseCIDR q = none → r = .text (jsTrim q))

/-- **C2**: for a coherent address library, `Query.parse` never throws, and
classifies every query string into exactly one of the four categories in
the order address, range, CIDR subnet, trimmed free text. -/
theorem query_parse_classifies (lib : IpaddrLib) (hlib : lib.wf)
    (q : String) : ∃ r, Query.parse lib q = some r ∧ ParseSpec lib q r := by
  by_cases h1 : lib.isValid q = true
  · have hs := hlib q h1
    rw [Option.isSome_iff_exists] at hs
    obtain ⟨a, ha⟩ := hs
    refine ⟨.ip a, by simp [Query.parse, h1, ha], ?_, ?_, ?_, ?_⟩
    · exact fun _ => ⟨a, ha, rfl⟩
    · intro hf; rw [h1] at hf; exact absurd hf (by decide)
    · intro hf; rw [h1] at hf; exact absurd hf (by decide)
    · intro hf; rw [h1] at hf; exact absurd hf (by decide)
  · rw [Bool.not_eq_true] at h1
    by_cases h2 : IpRange.isValid lib q = true
    · obtain ⟨s0, s1, a, b, _, _, _, hpr⟩ :=
        ipRange_process_of_isValid lib hlib q h2
      refine ⟨.range (IpRange.mk a b),
        by simp [Query.parse, h1, h2, hpr], ?_, ?_, ?_, ?_⟩
      · intro ht; rw [h1] at ht; exact absurd ht (by decide)
      · exact fun _ _ => ⟨IpRange.mk a b, hpr, rfl⟩
      · intro _ hf; rw [h2] at hf; exact absurd hf (by decide)
      · intro _ hf; rw [h2] at hf; exact absurd hf (by decide)
    · rw [Bool.not_eq_true] at h2
      cases h3 : lib.parseCIDR q with
      | some c =>
        refine ⟨.subnet c, by simp [Query.parse, h1, h2, h3], ?_, ?_, ?_, ?_⟩
        · intro ht; rw [h1] at ht; exact absurd ht (by decide)
        · intro _ ht; rw [h2] at ht; exact absurd ht (by decide)
        · intro _ _ c' hc'; rw [h3] at hc'; cases hc'; rfl
        · intro _ _ hn; rw [h3] at hn; exact absurd hn (by simp)
      | none =>
        refine ⟨.text (jsTrim q), by simp [Query.parse, h1, h2, h3],
          ?_, ?_, ?_, ?_⟩
        · intro ht; rw [h1] at ht; exact absurd ht (by decide)
        · intro _ ht; rw [h2] at ht; exact absurd ht (by decide)
        · intro _ _ c' hc'; rw [h3] at hc'; exact absurd hc' (by simp)
        · intro _ _ _; rfl

/-- Witness for C2 on a free-text query (trailing whitespace trimmed). -/
theorem query_parse_classifies_witness :
    ∃ r, Query.parse toyLib " office printer " = some r ∧
      ParseSpec toyLib " office printer " r :=
  query_parse_classifies toyLib toyLib_wf " office printer "

/-! ## `Search.getResourceTypeUrl` from `src/_webpack/search.js` -/

/-- `Query.isIP` from `query.js`: `instanceof ipaddr.IPv4 || instanceof
ipaddr.IPv6`.  Of the values `Query.parse` can return, exactly the address
objects satisfy it. -/
def Query.isIP : QueryResult → Bool
  | .ip _ => true
  | _ => false

/-- `Query.isSubnet` from `query.js`: `instanceof Array && isIP(q[0])`.  Of
the values `Query.parse` can return, exactly the CIDR pairs are arrays whose
first element is an address object. -/
def Query.isSubnet : QueryResult → Bool
  | .subnet _ => true
  | _ => false

/-- `q instanceof IpRange`, the middle test of `getResourceTypeUrl`. -/
def instanceofIpRange : QueryResult → Bool
  | .range _ => true
  | _ => false

/-- `Search.getResourceTypeUrl` from `search.js` lines 33–47. -/
def Search.getResourceTypeUrl (q : QueryResult) : String :=
  if Query.isIP q then "/lookup/ip.html"
  else if instanceofIpRange q then "/lookup/range.html"
  else if Query.isSubnet q then "/lookup/subnet.html"
  else "/search.html"

/-- **C8**: `getResourceTypeUrl` is total on parsed query values and routes
each of the four query shapes to exactly one page: addresses to the IP
lookup, ranges to the range lookup, CIDR pairs to the subnet lookup, and
everything else (free text) to the generic search page. -/
theorem getResourceTypeUrl_routes (q : QueryResult) :
    (Search.getResourceTypeUrl q = "/lookup/ip.html" ↔ ∃ a, q = .ip a) ∧
    (Search.getResourceTypeUrl q = "/lookup/range.html" ↔ ∃ r, q = .range r) ∧
    (Search.getResourceTypeUrl q = "/lookup/subnet.html" ↔ ∃ c, q = .subnet c) ∧
    (Search.getResourceTypeUrl q = "/search.html" ↔ ∃ s, q = .text s) := by
  cases q <;>
    simp [Search.getResourceTypeUrl, Query.isIP, Query.isSubnet,
      instanceofIpRange]

/-! ## `Search.search` from `src/_webpack/search.js`

The regular-expression machinery of `new RegExp(query, 'i')` is kept
abstract as a pair of functions: `test` decides whether the
case-insensitive pattern matches a value, `highlight` is
`v.replace(expr, '<span ...>$&</span>')`, the highlighted copy produced for
matching values. -/

structure RegexLib where
  /-- `String(v).match(new RegExp(query, 'i')) ? ... : null`, as a Bool. -/
  test : String → String → Bool
  /-- `v.replace(expr, '<span class="bg-warning text-dark">$&</span>')`. -/
  highlight : String → String → String

/-- The dataset tag added by `Search.toSearchData` (`data['_']`). -/
inductive SearchTag where
  | ip
  | block
deriving DecidableEq, Repr

/-- A record of `ip.json` / `block.json` as consumed by the search: the
two index fields and the eight searched attributes, each possibly absent
(`none` models a missing key, `some ""` an empty string; both are falsy). -/
structure SearchItem where
  ip : Option String := none
  network : Option String := none
  name : Option String := none
  /-- the `type` attribute (a Lean keyword, hence the short name) -/
  typ : Option String := none
  asset : Option String := none
  serial : Option String := none
  site : Option String := none
  scope : Option String := none
  owner : Option String := none
  description : Option String := none
deriving DecidableEq, Repr

/-- A record after `Search.toSearchData` set `data['_'] = type`. -/
structure TaggedData where
  data : SearchItem
  tag : SearchTag
deriving DecidableEq, Repr

/-- A record after the search attached `data['res']`. -/
structure ResData where
  data : SearchItem
  tag : SearchTag
  res : List String
deriving DecidableEq, Repr

/-- The shape produced by `Search.toSearchResult`. -/
structure SearchResult where
  /-- the `type` entry -/
  typ : String
  /-- `data[type.index]`; `none` when the index field is missing -/
  name : Option String
  link : String
  data : String
deriving DecidableEq, Repr

/-- `String(v)` for a possibly-undefined value. -/
def jsString : Option String → String
  | none => "undefined"
  | some s => s

/-- `Search.toSearchData` from `search.js`: attach the dataset type. -/
def Search.toSearchData (tag : SearchTag) (d : SearchItem) : TaggedData :=
  ⟨d, tag⟩

/-- The local `match` helper of `Search.search` (`search.js` lines
152–162): falsy values (`undefined` keys, empty strings) give `undefined`;
otherwise a matching value yields its highlighted copy and a non-matching
one yields `null`.  `null` and `undefined` are both modelled by `none`,
since the caller only keeps truthy entries. -/
def Search.matchField (rx : RegexLib) (query : String) :
    Option String → Option String
  | none => none
  | some s =>
    if s.isEmpty then none
    else if rx.test query s then some (rx.highlight query s)
    else none

/-- The eight attributes probed by `Search.search`, in source order. -/
def searchFields (d : SearchItem) : List (Option String) :=
  [d.name, d.typ, d.asset, d.serial, d.site, d.scope, d.owner, d.description]

/-- Attach `data['res']` (`search.js` lines 169–180): the `match` results of
the eight attributes, with falsy entries dropped by `.filter(x => x)`
(dropping `null`/`undefined` is `filterMap id`, dropping `''` is the
emptiness filter). -/
def Search.addRes (rx : RegexLib) (query : String) (td : TaggedData) :
    ResData :=
  ⟨td.data, td.tag,
    (([Search.matchField rx query td.data.name,
       Search.matchField rx query td.data.typ,
       Search.matchField rx query td.data.asset,
       Search.matchField rx query td.data.serial,
       Search.matchField rx query td.data.site,
       Search.matchField rx query td.data.scope,
       Search.matchField rx query td.data.owner,
       Search.matchField rx query td.data.description].filterMap id).filter
      (fun s => !s.isEmpty))⟩

/-- Remove every space, `String(resource).replace(/ /g, '')` from
`Page.toResourceUrl`. -/
def removeSpaces (s : String) : String :=
  String.mk (s.data.filter (fun c => !(c = ' ')))

/-- `Page.toResourceUrl` from `page.js` lines 312–315. -/
def Page.toResourceUrl (url : String) (resource : Option String) : String :=
  url ++ "?q=" ++ removeSpaces (jsString resource)

/-- `Search.toSearchResult` from `search.js` lines 98–123, with the
`IPAM_BASE_URL` build-time constant as parameter `base`. -/
def Search.toSearchResult (base : String) (rd : ResData) : SearchResult :=
  match rd.tag with
  | .ip =>
    ⟨"IP", rd.data.ip, Page.toResourceUrl (base ++ "/lookup/ip.html") rd.data.ip,
      String.intercalate "<br/>" rd.res⟩
  | .block =>
    ⟨"Block", rd.data.network,
      Page.toResourceUrl (base ++ "/lookup/block.html") rd.data.network,
      String.intercalate "<br/>" rd.res⟩

/-- `Search.search` from `search.js` lines 139–187, applied to the two
fetched collections: tag both datasets, attach the match results, keep the
records with a non-empty `res`, and map them to search results. -/
def Search.search (rx : RegexLib) (base query : String)
    (ips blocks : List SearchItem) : List SearchResult :=
  let tagged := ips.map (Search.toSearchData .ip) ++
    blocks.map (Search.toSearchData .block)
  (((tagged.map (Search.addRes rx query)).filter
      (fun rd => decide (0 < rd.res.length))).map (Search.toSearchResult base))

/-- The predicate C3 ascribes to the search: some searched attribute is
present (truthy) and matches the query pattern. -/
def fieldMatches (rx : RegexLib) (query : String) : Option String → Bool
  | none => false
  | some s => !s.isEmpty && rx.test query s

/-- A record is returned iff one of the eight attributes matches. -/
def recordMatches (rx : RegexLib) (query : String) (td : TaggedData) : Bool :=
  (searchFields td.data).any (fieldMatches rx query)

theorem matchField_isSome (rx : RegexLib) (query : String)
    (v : Option String) :
    (Search.matchField rx query v).isSome = fieldMatches rx query v := by
  cases v with
  | none => rfl
  | some s =>
    by_cases he : s.isEmpty <;> by_cases ht : rx.test query s <;>
      simp [Search.matchField, fieldMatches, he, ht]

theorem matchField_nonempty (rx : RegexLib)
    (hne : ∀ q s, (rx.highlight q s).isEmpty = false) (query : String)
    (v : Option String) (s : String)
    (h : Search.matchField rx query v = some s) : s.isEmpty = false := by
  cases v with
  | none => exact absurd h (by simp [Search.matchField])
  | some s0 =>
    rw [Search.matchField] at h
    by_cases he : s0.isEmpty
    · rw [if_pos he] at h; exact absurd h (by simp)
    · rw [if_neg he] at h
      by_cases ht : rx.test query s0
      · rw [if_pos ht] at h
        injection h with h
        rw [← h]
        exact hne query s0
      · rw [if_neg ht] at h; exact absurd h (by simp)

theorem filterMap_filter_nonempty (l : List (Option String))
    (h : ∀ s, some s ∈ l → s.isEmpty = false) :
    (l.filterMap id).filter (fun s => !s.isEmpty) = l.filterMap id := by
  induction l with
  | nil => rfl
  | cons o l ih =>
    cases o with
    | none =>
      have e : (none :: l).filterMap (id : Option String → Option String) =
        l.filterMap id := rfl
      rw [e]
      exact ih (fun s hs => h s (List.mem_cons_of_mem _ hs))
    | some s =>
      have e : (some s :: l).filterMap (id : Option String → Option String) =
        s :: l.filterMap id := rfl
      rw [e, List.filter_cons, h s (List.mem_cons_self _ _)]
      simp [ih (fun s hs => h s (List.mem_cons_of_mem _ hs))]

theorem filterMap_length_pos (l : List (Option String)) :
    decide (0 < (l.filterMap id).length) = l.any Option.isSome := by
  induction l with
  | nil => rfl
  | cons o l ih =>
    cases o with
    | none => simpa using ih
    | some s => simp

theorem addRes_res_pos (rx : RegexLib)
    (hne : ∀ q s, (rx.highlight q s).isEmpty = false) (query : String)
    (td : TaggedData) :
    decide (0 < (Search.addRes rx query td).res.length) =
      recordMatches rx query td := by
  have hlist : [Search.matchField rx query td.data.name,
      Search.matchField rx query td.data.typ,
      Search.matchField rx query td.data.asset,
      Search.matchField rx query td.data.serial,
      Search.matchField rx query td.data.site,
      Search.matchField rx query td.data.scope,
      Search.matchField rx query td.data.owner,
      Search.matchField rx query td.data.description] =
      (searchFields td.data).map (Search.matchField rx query) := rfl
  show decide (0 <
    (([Search.matchField rx query td.data.name,
       Search.matchField rx query td.data.typ,
       Search.matchField rx query td.data.asset,
       Search.matchField rx query td.data.serial,
       Search.matchField rx query td.data.site,
       Search.matchField rx query td.data.scope,
       Search.matchField rx query td.data.owner,
       Search.matchField rx query td.data.description].filterMap id).filter
      (fun s => !s.isEmpty)).length) = recordMatches rx query td
  rw [hlist]
  rw [filterMap_filter_nonempty _ (fun s hs => by
    obtain ⟨v, _, heq⟩ := List.mem_map.mp hs
    exact matchField_nonempty rx hne query v s heq)]
  rw [filterMap_length_pos, List.any_map, recordMatches]
  congr 1
  funext v
  exact matchField_isSome rx query v

/-- **C3**: `Search.search` returns exactly the records — in collection
order, mapped to search results — in which at least one of the eight
attributes `name`, `type`, `asset`, `serial`, `site`, `scope`, `owner`,
`description` is present and matches the query pattern; records with no
matching attribute are excluded.  The hypothesis records that highlighted
copies are never the empty string (the replacement inserts span markup). -/
theorem search_returns_matching_records (rx : RegexLib)
    (hne : ∀ q s, (rx.highlight q s).isEmpty = false)
    (base query : String) (ips blocks : List SearchItem) :
    Search.search rx base query ips blocks =
      ((ips.map (Search.toSearchData .ip) ++
        blocks.map (Search.toSearchData .block)).filter
          (recordMatches rx query)).map
        (fun td => Search.toSearchResult base (Search.addRes rx query td)) := by
  simp only [Search.search]
  rw [List.filter_map, List.map_map]
  rw [List.filter_congr (fun td _ => by
    show (fun rd => decide (0 < rd.res.length)) (Search.addRes rx query td) =
      recordMatches rx query td
    exact addRes_res_pos rx hne query td)]
  rfl

/-- A small concrete regex backend: the pattern matches a value iff it
equals it, and highlighting yields a fixed non-empty marker. -/
def toyRx : RegexLib where
  test q s := s == q
  highlight _ _ := "hit"

/-- Witness for C3 on a one-record IP collection matching the query. -/
theorem search_returns_matching_records_witness :
    Search.search toyRx "" "printer"
        [{ ip := some "10.0.0.1", name := some "printer" }] [] =
      (([({ ip := some "10.0.0.1", name := some "printer" } : SearchItem)].map
          (Search.toSearchData .ip) ++
        ([] : List SearchItem).map (Search.toSearchData .block)).filter
          (recordMatches toyRx "printer")).map
        (fun td => Search.toSearchResult "" (Search.addRes toyRx "printer" td)) :=
  search_returns_matching_records toyRx (fun _ _ => rfl) "" "printer"
    [{ ip := some "10.0.0.1", name := some "printer" }] []

/-! ## `IPAM.fetchIpOfRange` and `IPAM.fetchSubnetByIp` from
`src/_webpack/ipam.js` -/

/-- A record of `ip.json` as consumed by `fetchIpOfRange`: the `ip` field
(an address string) and an opaque stand-in for the remaining attributes,
which the filter must not touch. -/
structure IpItem where
  ip : String
  rest : Nat := 0
deriving DecidableEq, Repr

/-- `IPAM.fetchIpOfRange` from `ipam.js` lines 273–279, applied to the
already-fetched collection for the version of `range.first`:
`response.filter(item => range.match(ipaddr.process(item.ip)))`.  A record
whose `ip` string does not parse makes the callback throw, rejecting the
whole promise (`none`). -/
def IPAM.fetchIpOfRange (lib : IpaddrLib) (range : IpRange) :
    List IpItem → Option (List IpItem)
  | [] => some []
  | item :: coll =>
    match lib.process item.ip with
    | none => none
    | some a =>
      if range.matchIp a then
        (IPAM.fetchIpOfRange lib range coll).map (fun l => item :: l)
      else IPAM.fetchIpOfRange lib range coll

/-- The membership predicate of C5: the record's `ip` field parses to an
address the range matches. -/
def ipMatchesRange (lib : IpaddrLib) (range : IpRange) (item : IpItem) : Bool :=
  match lib.process item.ip with
  | some a => range.matchIp a
  | none => false

/-- **C5**: on a collection whose `ip` fields all parse, `fetchIpOfRange`
returns exactly the records whose parsed address the range matches — the
order-preserving sub-sequence of the collection selected by that predicate,
with every record passed through unmodified. -/
theorem fetchIpOfRange_filters (lib : IpaddrLib) (range : IpRange)
    (coll : List IpItem)
    (h : ∀ item ∈ coll, (lib.process item.ip).isSome = true) :
    IPAM.fetchIpOfRange lib range coll =
      some (coll.filter (ipMatchesRange lib range)) ∧
    (coll.filter (ipMatchesRange lib range)).Sublist coll := by
  refine ⟨?_, List.filter_sublist _⟩
  induction coll with
  | nil => rfl
  | cons item coll ih =>
    have hi := h item (List.mem_cons_self _ _)
    rw [Option.isSome_iff_exists] at hi
    obtain ⟨a, ha⟩ := hi
    have ih' := ih (fun it hit => h it (List.mem_cons_of_mem _ hit))
    show (match lib.process item.ip with
      | none => none
      | some a =>
        if range.matchIp a then
          (IPAM.fetchIpOfRange lib range coll).map (fun l => item :: l)
        else IPAM.fetchIpOfRange lib range coll) =
      some ((item :: coll).filter (ipMatchesRange lib range))
    rw [ha, List.filter_cons]
    by_cases hm : range.matchIp a
    · simp [hm, ih', ipMatchesRange, ha]
    · simp [hm, ih', ipMatchesRange, ha]

/-- Witness for C5: one matching and one non-matching record. -/
theorem fetchIpOfRange_filters_witness :
    IPAM.fetchIpOfRange toyLib
        (IpRange.mk (.v4 [1, 2, 3, 4]) (.v4 [1, 2, 3, 4]))
        [{ ip := "1.2.3.4" }, { ip := "5.6.7.8" }] =
      some ([{ ip := "1.2.3.4" }, { ip := "5.6.7.8" }].filter
        (ipMatchesRange toyLib
          (IpRange.mk (.v4 [1, 2, 3, 4]) (.v4 [1, 2, 3, 4])))) ∧
    (([{ ip := "1.2.3.4" }, { ip := "5.6.7.8" }] : List IpItem).filter
        (ipMatchesRange toyLib
          (IpRange.mk (.v4 [1, 2, 3, 4]) (.v4 [1, 2, 3, 4])))).Sublist
      [{ ip := "1.2.3.4" }, { ip := "5.6.7.8" }] :=
  fetchIpOfRange_filters toyLib
    (IpRange.mk (.v4 [1, 2, 3, 4]) (.v4 [1, 2, 3, 4]))
    [{ ip := "1.2.3.4" }, { ip := "5.6.7.8" }] (by decide)

/-- A record of `subnet.json` as consumed by `fetchSubnetByIp`: the
`network` CIDR string and an opaque stand-in for the remaining
attributes. -/
structure SubnetItem where
  network : String
  rest : Nat := 0
deriving DecidableEq, Repr

/-- `IPAM.fetchSubnetByIp` from `ipam.js` lines 453–459, applied to the
already-fetched collection for the version of `ip`:
`response.find(item => ip.match(ipaddr.parseCIDR(item.network)))`.  `find`
scans left to right; an unparsable `network` makes the callback throw,
rejecting the whole promise (outer `none`), and an exhausted scan yields
`undefined` (inner `none`). -/
def IPAM.fetchSubnetByIp (lib : IpaddrLib) (ip : IpAddr) :
    List SubnetItem → Option (Option SubnetItem)
  | [] => some none
  | item :: coll =>
    match lib.parseCIDR item.network with
    | none => none
    | some c =>
      if lib.matchCIDR ip c then some (some item)
      else IPAM.fetchSubnetByIp lib ip coll

/-- The containment predicate of C6: the record's `network` parses to a
CIDR block containing `ip`. -/
def subnetContains (lib : IpaddrLib) (ip : IpAddr) (item : SubnetItem) : Bool :=
  match lib.parseCIDR item.network with
  | some c => lib.matchCIDR ip c
  | none => false

/-- A successful `find?` splits the list at the first satisfying element. -/
theorem find?_some_split {α : Type} (p : α → Bool) :
    ∀ (l : List α) (a : α), l.find? p = some a →
      ∃ l1 l2, l = l1 ++ a :: l2 ∧ ∀ x ∈ l1, p x = false := by
  intro l
  induction l with
  | nil => intro a h; exact Option.noConfusion h
  | cons b l ih =>
    intro a h
    by_cases hb : p b
    · rw [List.find?_cons_of_pos _ hb] at h
      injection h with h
      subst h
      exact ⟨[], l, rfl, by simp⟩
    · rw [List.find?_cons_of_neg _ hb] at h
      obtain ⟨l1, l2, he, hall⟩ := ih a h
      refine ⟨b :: l1, l2, by rw [he]; rfl, ?_⟩
      intro x hx
      rcases List.mem_cons.mp hx with hx | hx
      · subst hx; rwa [Bool.not_eq_true] at hb
      · exact hall x hx

/-- **C6**: on a collection whose `network` fields all parse,
`fetchSubnetByIp` returns the first record whose CIDR block contains the
IP — every record before it fails the containment test — and returns
`undefined` exactly when no record's block contains it. -/
theorem fetchSubnetByIp_first (lib : IpaddrLib) (ip : IpAddr)
    (coll : List SubnetItem)
    (h : ∀ item ∈ coll, (lib.parseCIDR item.network).isSome = true) :
    IPAM.fetchSubnetByIp lib ip coll =
      some (coll.find? (subnetContains lib ip)) ∧
    (coll.find? (subnetContains lib ip) = none ↔
      ∀ item ∈ coll, subnetContains lib ip item = false) ∧
    (∀ item, coll.find? (subnetContains lib ip) = some item →
      subnetContains lib ip item = true ∧
      ∃ l1 l2, coll = l1 ++ item :: l2 ∧
        ∀ x ∈ l1, subnetContains lib ip x = false) := by
  refine ⟨?_, ?_, ?_⟩
  · induction coll with
    | nil => rfl
    | cons item coll ih =>
      have hi := h item (List.mem_cons_self _ _)
      rw [Option.isSome_iff_exists] at hi
      obtain ⟨c, hc⟩ := hi
      have ih' := ih (fun it hit => h it (List.mem_cons_of_mem _ hit))
      show (match lib.parseCIDR item.network with
        | none => none
        | some c =>
          if lib.matchCIDR ip c then some (some item)
          else IPAM.fetchSubnetByIp lib ip coll) =
        some ((item :: coll).find? (subnetContains lib ip))
      rw [hc]
      show (if lib.matchCIDR ip c then some (some item)
        else IPAM.fetchSubnetByIp lib ip coll) =
        some ((item :: coll).find? (subnetContains lib ip))
      by_cases hm : lib.matchCIDR ip c
      · rw [if_pos hm,
          List.find?_cons_of_pos _ (by simp [subnetContains, hc, hm])]
      · rw [if_neg hm,
          List.find?_cons_of_neg _ (by simp [subnetContains, hc, hm]), ih']
  · rw [List.find?_eq_none]
    constructor
    · intro hn item hmem
      have := hn item hmem
      rwa [Bool.not_eq_true] at this
    · intro hall item hmem
      rw [hall item hmem]
      exact Bool.false_ne_true
  · intro item hfind
    exact ⟨List.find?_some hfind, find?_some_split _ coll item hfind⟩

/-- Witness for C6: the second record is the first containing block. -/
theorem fetchSubnetByIp_first_witness :
    IPAM.fetchSubnetByIp toyLib (.v4 [10, 1, 2, 3])
        [{ network := "10.0.0.0/8" }] =
      some ([({ network := "10.0.0.0/8" } : SubnetItem)].find?
        (subnetContains toyLib (.v4 [10, 1, 2, 3]))) ∧
    (([({ network := "10.0.0.0/8" } : SubnetItem)].find?
        (subnetContains toyLib (.v4 [10, 1, 2, 3]))) = none ↔
      ∀ item ∈ [({ network := "10.0.0.0/8" } : SubnetItem)],
        subnetContains toyLib (.v4 [10, 1, 2, 3]) item = false) ∧
    (∀ item, ([({ network := "10.0.0.0/8" } : SubnetItem)].find?
        (subnetContains toyLib (.v4 [10, 1, 2, 3]))) = some item →
      subnetContains toyLib (.v4 [10, 1, 2, 3]) item = true ∧
      ∃ l1 l2, [({ network := "10.0.0.0/8" } : SubnetItem)] = l1 ++ item :: l2 ∧
        ∀ x ∈ l1, subnetContains toyLib (.v4 [10, 1, 2, 3]) x = false) :=
  fetchSubnetByIp_first toyLib (.v4 [10, 1, 2, 3])
    [{ network := "10.0.0.0/8" }] (by decide)

/-! ## `IPAM.fetch` from `src/_webpack/ipam.js`: 404 handling and
sanitization -/

/-- A JSON-decoded JavaScript value held in a record field.  `date` wraps
the raw value a `new Date(Date.parse(...))` call was applied to, keeping
the date semantics abstract. -/
inductive JsValue where
  | str : List Char → JsValue
  | num : Int → JsValue
  | bool : Bool → JsValue
  | null : JsValue
  | date : JsValue → JsValue
deriving DecidableEq, Repr

/-- JavaScript `s.replace(/c/g, r)` for a one-character pattern: substitute
every occurrence of `c` by `r`. -/
def replaceChar (c : Char) (r : List Char) (s : List Char) : List Char :=
  s.flatMap (fun x => if x = c then r else [x])

/-- The string substitution of `IPAM.sanitizeValues` (`ipam.js` lines
59–62): `&` to `&amp;`, then `<` to `&lt;`, then `"` to `&quot;`. -/
def sanitizeString (s : List Char) : List Char :=
  replaceChar '"' "&quot;".data
    (replaceChar '<' "&lt;".data (replaceChar '&' "&amp;".data s))

/-- `IPAM.sanitizeValues` from `ipam.js` lines 55–65: apply the
substitution to every string-valued field, leave other fields as they
are. -/
def IPAM.sanitizeValues (item : List (String × JsValue)) :
    List (String × JsValue) :=
  item.map (fun kv =>
    match kv.2 with
    | JsValue.str s => (kv.1, JsValue.str (sanitizeString s))
    | _ => kv)

/-- The designated date keys of `IPAM.parseDateFields`. -/
def dateFields : List String := ["assigned", "expires", "received", "changed"]

/-- `IPAM.parseDateFields` from `ipam.js` lines 80–103: values of date keys
become `Date` objects, everything else is untouched. -/
def IPAM.parseDateFields (item : List (String × JsValue)) :
    List (String × JsValue) :=
  item.map (fun kv =>
    if dateFields.contains kv.1 then (kv.1, JsValue.date kv.2) else kv)

/-- An HTTP response for an API resource: its status code and the JSON
decoding of its body (`none` when `response.json()` would reject or its
result is not an array of objects). -/
structure Response where
  status : Nat
  body : Option (List (List (String × JsValue)))

/-- `IPAM.fetch` from `ipam.js` lines 145–171: a 404 response has its
`json()` overridden to the empty array; the decoded collection is passed
through `sanitizeValues` and `parseDateFields` item by item.  `none`
models a rejected promise. -/
def IPAM.fetch (resp : Response) :
    Option (List (List (String × JsValue))) :=
  let json := if resp.status == 404 then some [] else resp.body
  json.map (fun coll =>
    (coll.map IPAM.sanitizeValues).map IPAM.parseDateFields)

/-- **C9**: a 404 response resolves to the empty collection — whatever the
body holds — and the sanitization and date-parsing stages run on that empty
collection, so a missing data file is indistinguishable from an empty
one. -/
theorem fetch_404_empty (resp : Response) (h : resp.status = 404) :
    IPAM.fetch resp =
      some ((([] : List (List (String × JsValue))).map
        IPAM.sanitizeValues).map IPAM.parseDateFields) ∧
    IPAM.fetch resp = some [] := by
  constructor <;> simp [IPAM.fetch, h]

/-- Witness for C9: a 404 whose body is unreadable still yields `[]`. -/
theorem fetch_404_empty_witness :
    IPAM.fetch (Response.mk 404 none) =
      some ((([] : List (List (String × JsValue))).map
        IPAM.sanitizeValues).map IPAM.parseDateFields) ∧
    IPAM.fetch (Response.mk 404 none) = some [] :=
  fetch_404_empty (Response.mk 404 none) rfl

/-- A character of `replaceChar c r s` comes from the replacement `r` or is
a character of `s` other than `c`. -/
theorem mem_replaceChar {c : Char} {r s : List Char} {x : Char}
    (h : x ∈ replaceChar c r s) : x ∈ r ∨ (x ∈ s ∧ x ≠ c) := by
  induction s with
  | nil => exact absurd h (by simp [replaceChar])
  | cons a s ih =>
    have e : replaceChar c r (a :: s) =
        (if a = c then r else [a]) ++ replaceChar c r s := rfl
    rw [e] at h
    rcases List.mem_append.mp h with h1 | h1
    · by_cases hac : a = c
      · rw [if_pos hac] at h1; exact Or.inl h1
      · rw [if_neg hac] at h1
        rcases List.mem_singleton.mp h1 with rfl
        exact Or.inr ⟨List.mem_cons_self _ _, hac⟩
    · rcases ih h1 with h2 | ⟨h2, h3⟩
      · exact Or.inl h2
      · exact Or.inr ⟨List.mem_cons_of_mem _ h2, h3⟩

/-- No raw `<` or `"` survives `sanitizeString`. -/
theorem sanitizeString_no_raw (s : List Char) :
    '<' ∉ sanitizeString s ∧ '"' ∉ sanitizeString s := by
  constructor
  · intro h
    rcases mem_replaceChar h with h1 | ⟨h1, _⟩
    · exact absurd h1 (by decide)
    · rcases mem_replaceChar h1 with h2 | ⟨_, h3⟩
      · exact absurd h2 (by decide)
      · exact h3 rfl
  · intro h
    rcases mem_replaceChar h with h1 | ⟨_, h2⟩
    · exact absurd h1 (by decide)
    · exact h2 rfl

/-- **C10**: every record `IPAM.fetch` resolves with has passed
`sanitizeValues`, so none of its string-valued fields contains a raw `<` or
`"`; and `sanitizeValues` leaves every non-string field unchanged. -/
theorem fetch_values_sanitized (resp : Response)
    (coll : List (List (String × JsValue)))
    (hf : IPAM.fetch resp = some coll) :
    (∀ item ∈ coll, ∀ kv ∈ item, ∀ s, kv.2 = JsValue.str s →
      ('<' ∉ s ∧ '"' ∉ s)) ∧
    (∀ item : List (String × JsValue), ∀ kv ∈ item,
      (∀ s, kv.2 ≠ JsValue.str s) → kv ∈ IPAM.sanitizeValues item) := by
  constructor
  · intro item hitem kv hkv s hs
    have hcoll : ∃ raw : List (List (String × JsValue)), coll =
        (raw.map IPAM.sanitizeValues).map IPAM.parseDateFields := by
      rw [IPAM.fetch] at hf
      by_cases h404 : resp.status == 404
      · rw [if_pos h404] at hf
        simp only [Option.map_some'] at hf
        injection hf with hf
        exact ⟨[], hf.symm⟩
      · rw [if_neg h404] at hf
        cases hb : resp.body with
        | none => rw [hb] at hf; exact Option.noConfusion hf
        | some raw =>
          rw [hb] at hf
          simp only [Option.map_some'] at hf
          injection hf with hf
          exact ⟨raw, hf.symm⟩
    obtain ⟨raw, rfl⟩ := hcoll
    rw [List.map_map] at hitem
    obtain ⟨item0, _, hitem0⟩ := List.mem_map.mp hitem
    rw [← hitem0, Function.comp_apply, IPAM.parseDateFields] at hkv
    obtain ⟨kv1, hkv1, hkve⟩ := List.mem_map.mp hkv
    by_cases hdate : dateFields.contains kv1.1
    · have hkvd : kv = (kv1.1, JsValue.date kv1.2) := by
        rw [← hkve, if_pos hdate]
      rw [hkvd] at hs
      exact JsValue.noConfusion hs
    · have hkvd : kv = kv1 := by
        rw [← hkve, if_neg hdate]
      subst hkvd
      rw [IPAM.sanitizeValues] at hkv1
      obtain ⟨kv0, _, hkv0e⟩ := List.mem_map.mp hkv1
      cases hv : kv0.2 with
      | str s0 =>
        have hkv1e : kv = (kv0.1, JsValue.str (sanitizeString s0)) := by
          rw [← hkv0e, hv]
        rw [hkv1e] at hs
        injection hs with hs
        rw [← hs]
        exact sanitizeString_no_raw s0
      | num n =>
        have hkv1e : kv = kv0 := by rw [← hkv0e, hv]
        rw [hkv1e, hv] at hs
        exact JsValue.noConfusion hs
      | bool b =>
        have hkv1e : kv = kv0 := by rw [← hkv0e, hv]
        rw [hkv1e, hv] at hs
        exact JsValue.noConfusion hs
      | null =>
        have hkv1e : kv = kv0 := by rw [← hkv0e, hv]
        rw [hkv1e, hv] at hs
        exact JsValue.noConfusion hs
      | date v =>
        have hkv1e : kv = kv0 := by rw [← hkv0e, hv]
        rw [hkv1e, hv] at hs
        exact JsValue.noConfusion hs
  · intro item kv hkv hnstr
    rw [IPAM.sanitizeValues]
    refine List.mem_map.mpr ⟨kv, hkv, ?_⟩
    show (match kv.2 with
      | JsValue.str s => (kv.1, JsValue.str (sanitizeString s))
      | _ => kv) = kv
    cases h : kv.2 with
    | str s => exact absurd h (hnstr s)
    | num n => rfl
    | bool b => rfl
    | null => rfl
    | date v => rfl

/-- Witness for C10: a record with an ampersand in its `name` field. -/
theorem fetch_values_sanitized_witness :
    (∀ item ∈
        [[(("name" : String),
           JsValue.str ['a', '&', 'a', 'm', 'p', ';', 'b'])]],
      ∀ kv ∈ item, ∀ s, kv.2 = JsValue.str s → ('<' ∉ s ∧ '"' ∉ s)) ∧
    (∀ item : List (String × JsValue), ∀ kv ∈ item,
      (∀ s, kv.2 ≠ JsValue.str s) → kv ∈ IPAM.sanitizeValues item) :=
  fetch_values_sanitized
    (Response.mk 200 (some [[("name", JsValue.str ['a', '&', 'b'])]]))
    [[(("name" : String), JsValue.str ['a', '&', 'a', 'm', 'p', ';', 'b'])]]
    (by decide)
